import Mathlib

/-!
Verification development for the metadata inference and title-cleaning engine
of the audio_metadata_editor repository (src/backend/core/tag_inference.py,
src/backend/utils/title_cleaner.py, src/backend/core/metadata_manager.py).

Python strings are modelled as lists of characters (PyStr).  Python regular
expressions are modelled by a small backtracking engine (RX / mrun) that
reproduces the semantics of the re module for the pattern features actually
used by the source: literal text, character classes, alternation tried left
to right, greedy and lazy quantifiers over character classes, optional
atoms, one level of capture groups, word boundaries, and the anchors of the
form used in the source.  re.IGNORECASE is modelled with ASCII lowercasing
(Char.toLower); float division in the artist-side vote is modelled with
exact rational arithmetic.
-/

/-- Python str modelled as a list of characters. -/
abbrev PyStr := List Char

/-- Shorthand turning a Lean string literal into the PyStr model. -/
def pys (s : String) : PyStr := s.toList

/-- Python whitespace class (ASCII part of the re module class for \s). -/
def pyIsSpace (c : Char) : Bool :=
  c = ' ' || c = '\t' || c = '\n' || c = '\r' || c = '\x0b' || c = '\x0c'

/-- Python word character (ASCII part of the re module class for \w). -/
def pyIsWord (c : Char) : Bool := c.isAlphanum || c = '_'

/-- str.lower, ASCII model. -/
def pyLowerStr (s : PyStr) : PyStr := s.map Char.toLower

/-- str.strip with no arguments: drop whitespace from both ends. -/
def pyStrip (s : PyStr) : PyStr :=
  ((s.dropWhile pyIsSpace).reverse.dropWhile pyIsSpace).reverse

/-- str.strip(chars): drop any of the given characters from both ends. -/
def pyStripChars (cs : List Char) (s : PyStr) : PyStr :=
  ((s.dropWhile (cs.contains ·)).reverse.dropWhile (cs.contains ·)).reverse

/-- str.replace of underscores by spaces. -/
def replUnd (s : PyStr) : PyStr := s.map (fun c => if c = '_' then ' ' else c)

/-- Helper for collapseWs: the flag records whether the previous character
was whitespace already emitted as a single space. -/
def collapseWsAux : Bool → PyStr → PyStr
  | _, [] => []
  | inWs, c :: cs =>
    if pyIsSpace c then
      if inWs then collapseWsAux true cs else ' ' :: collapseWsAux true cs
    else c :: collapseWsAux false cs

/-- re.sub of one or more whitespace characters by a single space: every
maximal whitespace run becomes one space. -/
def collapseWs (s : PyStr) : PyStr := collapseWsAux false s

/-- Substring test, as the Python in operator on strings. -/
def isSubstr (pat : PyStr) : PyStr → Bool
  | [] => pat.isEmpty
  | s@(_ :: cs) => pat.isPrefixOf s || isSubstr pat cs

/-- str.split(sep, 1): split at the first occurrence of a substring
separator, when present. -/
def splitFirstSub (sep : PyStr) : PyStr → Option (PyStr × PyStr)
  | [] => if sep.isEmpty then some ([], []) else none
  | s@(c :: cs) =>
    if sep.isPrefixOf s then some ([], s.drop sep.length)
    else (splitFirstSub sep cs).map (fun pr => (c :: pr.1, pr.2))

/-- str.split(',') model: split on every occurrence of one character. -/
def splitChar (sep : Char) : PyStr → List PyStr
  | [] => [[]]
  | c :: cs =>
    if c = sep then [] :: splitChar sep cs
    else
      match splitChar sep cs with
      | [] => [[c]]
      | h :: t => (c :: h) :: t

/-- Join a list of strings with a separator, as str.join. -/
def joinSep (sep : PyStr) (l : List PyStr) : PyStr := List.intercalate sep l

/-- os.path.splitext(name)[0] for a bare file name (no path separators):
cut at the last dot unless every character before it is a dot. -/
def splitextRoot (s : PyStr) : PyStr :=
  match (s.reverse.findIdx? (· = '.')) with
  | none => s
  | some k =>
    let i := s.length - 1 - k
    if (s.take i).any (fun c => c ≠ '.') then s.take i else s

/-!  The regex engine.  All quantifiers appearing in the source quantify
over single-character classes, which is what rep supports.  Alternation and
optional atoms try the left / present branch first, greedy repetition tries
the longest extent first and lazy repetition the shortest, so the first
overall success coincides with the match the re module returns. -/

/-- Regex abstract syntax for the patterns used by the source. -/
inductive RX where
  | eps : RX
  | chr (c : Char) : RX
  | cls (p : Char → Bool) : RX
  | cat (a b : RX) : RX
  | alt (a b : RX) : RX
  | opt (a : RX) : RX
  | rep (p : Char → Bool) (min1 : Bool) (greedy : Bool) : RX
  | grp (i : Nat) (a : RX) : RX
  | bnd : RX
  | bos : RX
  | eos : RX

/-- Captured groups of one match: pairs of group index and captured text. -/
abbrev Caps := List (Nat × PyStr)

/-- Length of the longest prefix of characters satisfying p. -/
def leadCount (p : Char → Bool) : PyStr → Nat
  | [] => 0
  | c :: cs => if p c then leadCount p cs + 1 else 0

/-- First success over a list of candidate repetition extents. -/
def firstSome (f : Nat → Option α) : List Nat → Option α
  | [] => none
  | n :: ns => (f n).orElse (fun _ => firstSome f ns)

/-- The character preceding position n of s, given the character p that
precedes s itself. -/
def prevAfter (p : Option Char) (s : PyStr) (n : Nat) : Option Char :=
  if n = 0 then p else s.get? (n - 1)

/-- Word-boundary test between the previous character and the rest. -/
def atBoundary (p : Option Char) (s : PyStr) : Bool :=
  (match p with | none => false | some c => pyIsWord c)
    ≠ (match s.head? with | none => false | some c => pyIsWord c)

/-- Backtracking matcher in continuation-passing style.  The continuation
receives the previous character, the remaining input and the captures; the
first success in Python backtracking order is returned. -/
def mrun : RX → Option Char → PyStr → Caps →
    (Option Char → PyStr → Caps → Option α) → Option α
  | .eps, p, s, cs, k => k p s cs
  | .chr c, p, s, cs, k =>
    match s with
    | [] => none
    | x :: xs => if x.toLower = c.toLower then k (some x) xs cs else none
  | .cls f, _, s, cs, k =>
    match s with
    | [] => none
    | x :: xs => if f x then k (some x) xs cs else none
  | .cat a b, p, s, cs, k =>
    mrun a p s cs (fun p1 s1 cs1 => mrun b p1 s1 cs1 k)
  | .alt a b, p, s, cs, k =>
    (mrun a p s cs k).orElse (fun _ => mrun b p s cs k)
  | .opt a, p, s, cs, k =>
    (mrun a p s cs k).orElse (fun _ => k p s cs)
  | .rep f min1 greedy, p, s, cs, k =>
    let m := leadCount f s
    let lo := if min1 then 1 else 0
    if lo ≤ m then
      let idxs :=
        if greedy then (List.range (m - lo + 1)).map (fun j => m - j)
        else (List.range (m - lo + 1)).map (fun j => lo + j)
      firstSome (fun i => k (prevAfter p s i) (s.drop i) cs) idxs
    else none
  | .grp i a, p, s, cs, k =>
    mrun a p s cs
      (fun p1 s1 cs1 => k p1 s1 (cs1 ++ [(i, s.take (s.length - s1.length))]))
  | .bnd, p, s, cs, k => if atBoundary p s then k p s cs else none
  | .bos, p, s, cs, k => if p.isNone then k p s cs else none
  | .eos, p, s, cs, k => if s.isEmpty || s == ['\n'] then k p s cs else none

/-- Try to match r at the current position; on success return the consumed
length and the captures of the match. -/
def matchAt (r : RX) (p : Option Char) (s : PyStr) : Option (Nat × Caps) :=
  mrun r p s [] (fun _ s1 cs => some (s.length - s1.length, cs))

/-- One scanning step of re.sub with the empty replacement string, from a
given left context.  The fuel bounds the number of scanning steps; every
step consumes at least one input character, so an initial fuel of the input
length plus one is always enough. -/
def rxSubAux (r : RX) : Nat → Option Char → PyStr → PyStr
  | 0, _, s => s
  | _ + 1, _, [] => []
  | fuel + 1, p, s@(c :: cs) =>
    match matchAt r p s with
    | some (n, _) =>
      if n = 0 then c :: rxSubAux r fuel (some c) cs
      else rxSubAux r fuel (prevAfter p s n) (s.drop n)
    | none => c :: rxSubAux r fuel (some c) cs

/-- re.sub(pattern, empty string, s): remove every non-overlapping match,
scanning left to right. -/
def rxSub (r : RX) (s : PyStr) : PyStr := rxSubAux r (s.length + 1) none s

/-- Scanning step collecting the captures of every match, as re.finditer,
with the same fuel convention as rxSubAux. -/
def rxFindAux (r : RX) : Nat → Option Char → PyStr → List Caps
  | 0, _, _ => []
  | _ + 1, _, [] => []
  | fuel + 1, p, s@(c :: cs) =>
    match matchAt r p s with
    | some (n, caps) =>
      if n = 0 then caps :: rxFindAux r fuel (some c) cs
      else caps :: rxFindAux r fuel (prevAfter p s n) (s.drop n)
    | none => rxFindAux r fuel (some c) cs

/-- re.finditer: captures of all non-overlapping matches, left to right. -/
def rxFindAll (r : RX) (s : PyStr) : List Caps := rxFindAux r (s.length + 1) none s

/-- Group i of one match, the empty string when the group did not take part
in the match, as the re module reports for findall. -/
def capGet (i : Nat) (caps : Caps) : PyStr :=
  ((caps.find? (fun pr => pr.1 == i)).map Prod.snd).getD []

/-- Scanning step of re.split: segments between matches, with the same
fuel convention as rxSubAux. -/
def rxSplitAux (r : RX) : Nat → Option Char → PyStr → List PyStr
  | 0, _, s => [s]
  | _ + 1, _, [] => [[]]
  | fuel + 1, p, s@(c :: cs) =>
    match matchAt r p s with
    | some (n, _) =>
      if n = 0 then
        match rxSplitAux r fuel (some c) cs with
        | [] => [[c]]
        | h2 :: t => (c :: h2) :: t
      else [] :: rxSplitAux r fuel (prevAfter p s n) (s.drop n)
    | none =>
      match rxSplitAux r fuel (some c) cs with
      | [] => [[c]]
      | h2 :: t => (c :: h2) :: t

/-- re.split(pattern, s). -/
def rxSplit (r : RX) (s : PyStr) : List PyStr := rxSplitAux r (s.length + 1) none s

/-- Literal regex for an already-escaped text, matched case-insensitively
as everything in the source runs under re.IGNORECASE. -/
def litStr (t : PyStr) : RX := t.foldr (fun c r => RX.cat (RX.chr c) r) RX.eps

/-- Literal regex from a Lean string literal. -/
def lit (t : String) : RX := litStr t.toList

/-- One or more whitespace characters. -/
def wsPlus : RX := RX.rep pyIsSpace true true

/-- Zero or more whitespace characters. -/
def wsStar : RX := RX.rep pyIsSpace false true

/-!  NOISE_PATTERNS of TagInference, in source order (tag_inference.py
lines 13-31); every sub runs under re.IGNORECASE. -/

/-- Digit class for the upgrade pattern. -/
def isDigitCh (c : Char) : Bool := c.isDigit

/-- NOISE_PATTERNS in the exact order of the class attribute. -/
def NOISE_PATTERNS : List RX :=
  [ RX.cat (RX.chr '(') (RX.cat (lit "official") (RX.cat wsPlus
      (RX.cat (RX.opt (RX.cat (lit "music") wsPlus))
        (RX.cat (lit "video") (RX.chr ')'))))),
    RX.cat (RX.chr '(') (RX.cat (lit "official") (RX.cat wsPlus
      (RX.cat (lit "lyric") (RX.cat wsPlus (RX.cat (lit "video") (RX.chr ')')))))),
    RX.cat (RX.chr '(') (RX.cat (lit "official") (RX.cat wsPlus
      (RX.cat (lit "audio") (RX.chr ')')))),
    RX.cat (RX.chr '(') (RX.cat (lit "official") (RX.cat wsPlus
      (RX.cat (lit "visualizer") (RX.chr ')')))),
    RX.cat (RX.chr '(') (RX.cat (lit "lyric") (RX.cat wsPlus
      (RX.cat (lit "video") (RX.chr ')')))),
    RX.cat (RX.chr '(') (RX.cat (lit "music") (RX.cat wsPlus
      (RX.cat (lit "video") (RX.chr ')')))),
    RX.cat (RX.chr '(') (RX.cat (lit "audio") (RX.chr ')')),
    RX.cat (RX.chr '(') (RX.cat (lit "visualizer") (RX.chr ')')),
    RX.cat (RX.chr '[') (RX.cat (lit "official") (RX.cat wsPlus
      (RX.cat (RX.opt (RX.cat (lit "music") wsPlus))
        (RX.cat (lit "video") (RX.chr ']'))))),
    RX.cat (RX.chr '[') (RX.cat (lit "official") (RX.cat wsPlus
      (RX.cat (lit "lyric") (RX.cat wsPlus (RX.cat (lit "video") (RX.chr ']')))))),
    RX.cat (RX.chr '[') (RX.cat (lit "official") (RX.cat wsPlus
      (RX.cat (lit "audio") (RX.chr ']')))),
    RX.cat (RX.chr '[') (RX.cat (RX.rep isDigitCh true true)
      (RX.cat (RX.chr 'k') (RX.cat wsPlus (RX.cat (lit "upgrade") (RX.chr ']'))))),
    RX.cat (RX.chr '(') (RX.cat (lit "video") (RX.cat wsPlus
      (RX.cat (lit "oficial")
        (RX.cat (RX.rep (fun c => c ≠ ')') false true) (RX.chr ')'))))),
    RX.cat (RX.chr '+') (RX.cat wsStar (lit "traducción")),
    RX.cat (RX.chr '+') (RX.cat wsStar (lit "letra")),
    RX.cat (lit "music") (RX.cat wsPlus (RX.cat (lit "from") (RX.cat wsPlus
      (RX.cat (RX.chr '"')
        (RX.cat (RX.rep (fun c => c ≠ '"') false true) (RX.chr '"')))))),
    RX.cat wsStar (RX.cat (RX.opt (RX.chr '-'))
      (RX.cat wsStar (RX.cat (lit "topic") RX.eos))) ]

/-- Remove every NOISE_PATTERNS entry, in order, as the loop of
re.sub calls in _clean_title and clean_filename. -/
def noiseSub (s : PyStr) : PyStr := NOISE_PATTERNS.foldl (fun a r => rxSub r a) s

/-- The feature pattern of _clean_title (tag_inference.py line 321):
a word-bounded feat/ft/with/x marker, whitespace, a lazy capture of
non-parenthesis characters, up to an opening bracket or end of string. -/
def featRX : RX :=
  RX.cat .bnd (RX.cat
    (RX.alt (RX.cat (lit "feat") (RX.opt (RX.chr '.')))
      (RX.alt (RX.cat (lit "ft") (RX.opt (RX.chr '.')))
        (RX.alt (lit "with") (lit "x"))))
    (RX.cat wsPlus (RX.cat
      (RX.grp 1 (RX.rep (fun c => c ≠ '(' && c ≠ ')') true false))
      (RX.alt (RX.cat wsStar (RX.cls (fun c => c = '(' || c = '[')))
        RX.eos))))

/-- The split pattern comma-or-spaced-ampersand of _clean_title line 327. -/
def commaAmpRX : RX :=
  RX.alt (RX.chr ',') (RX.cat wsPlus (RX.cat (RX.chr '&') wsPlus))

/-- Trailing orphaned open bracket pattern of _clean_title line 338 and
clean_filename line 361. -/
def trailingRX : RX :=
  RX.cat wsStar (RX.cat (RX.cls (fun c => c = '(' || c = '[')) (RX.cat wsStar RX.eos))

/-- The separator string of the various split(' - ') calls. -/
def sepDash : PyStr := pys " - "

/-- TagInference._normalize_for_comparison: underscores to spaces, collapse
whitespace, strip, lowercase. -/
def normalize_for_comparison (t : PyStr) : PyStr :=
  pyLowerStr (pyStrip (collapseWs (replUnd t)))

/-!  TagInference._parse_artists.  The split on whitespace-ampersand-
whitespace is implemented directly: a match of the pattern is a maximal
whitespace run, an ampersand, and a maximal whitespace run, found leftmost
first, which is what the backtracking engine yields for this pattern. -/

/-- A match of the spaced-ampersand separator starting exactly here:
returns the remainder after the match. -/
def ampAt (s : PyStr) : Option PyStr :=
  let n := leadCount pyIsSpace s
  if n = 0 then none
  else
    match s.drop n with
    | [] => none
    | c :: r2 =>
      if c = '&' then
        let m := leadCount pyIsSpace r2
        if m = 0 then none else some (r2.drop m)
      else none

/-- Leftmost spaced-ampersand separator: text before it and remainder. -/
def findAmp : PyStr → Option (PyStr × PyStr)
  | [] => none
  | c :: cs =>
    match ampAt (c :: cs) with
    | some r => some ([], r)
    | none =>
      match findAmp cs with
      | some (pre, post) => some (c :: pre, post)
      | none => none

/-- The remainder produced by findAmp is strictly shorter than the input. -/
theorem findAmp_post_length :
    ∀ s pre post, findAmp s = some (pre, post) → post.length < s.length := by
  intro s
  induction s with
  | nil => intro pre post h; simp [findAmp] at h
  | cons c cs ih =>
    intro pre post h
    simp only [findAmp] at h
    cases hA : ampAt (c :: cs) with
    | some r =>
      rw [hA] at h
      cases h
      have hn : leadCount pyIsSpace (c :: cs) ≠ 0 := by
        intro h0
        simp [ampAt, h0] at hA
      revert hA
      unfold ampAt
      simp only [if_neg hn]
      cases hd : (c :: cs).drop (leadCount pyIsSpace (c :: cs)) with
      | nil => intro h'; cases h'
      | cons d r2 =>
        intro h'
        by_cases hdAmp : d = '&'
        · simp only [hdAmp, if_pos rfl] at h'
          by_cases hm : leadCount pyIsSpace r2 = 0
          · simp [hm] at h'
          · simp only [if_neg hm] at h'
            cases h'
            have h1 : cs.length + 1 - leadCount pyIsSpace (c :: cs) = r2.length + 1 := by
              simpa [List.length_drop] using congrArg List.length hd
            have h2 : (r2.drop (leadCount pyIsSpace r2)).length ≤ r2.length := by
              simp [List.length_drop]
            simp only [List.length_cons]
            omega
        · simp [hdAmp] at h'
    | none =>
      rw [hA] at h
      cases hF : findAmp cs with
      | some pr =>
        rw [hF] at h
        cases pr with
        | mk pre2 post2 =>
          simp only [Option.some.injEq] at h
          have := ih pre2 post2 hF
          have hpost : post = post2 := by
            have := h
            cases this
            rfl
          subst hpost
          simp only [List.length_cons]
          omega
      | none => rw [hF] at h; cases h

/-- Fuel-bounded splitting on the spaced-ampersand separator; every
separator match consumes at least one character, so fuel of the input
length plus one is always enough. -/
def splitAmpFuel : Nat → PyStr → List PyStr
  | 0, s => [s]
  | fuel + 1, s =>
    match findAmp s with
    | none => [s]
    | some (pre, post) => pre :: splitAmpFuel fuel post

/-- re.split of the spaced-ampersand separator, as used by _parse_artists. -/
def splitAmp (s : PyStr) : List PyStr := splitAmpFuel (s.length + 1) s

/-- A spaced-ampersand match consumes at least one ampersand: the remainder
carries strictly fewer ampersands than the input. -/
theorem findAmp_count :
    ∀ s pre post, findAmp s = some (pre, post) →
      post.count '&' + 1 ≤ s.count '&' := by
  intro s
  induction s with
  | nil => intro pre post h; simp [findAmp] at h
  | cons c cs ih =>
    intro pre post h
    simp only [findAmp] at h
    cases hA : ampAt (c :: cs) with
    | some r =>
      rw [hA] at h
      cases h
      have hn : leadCount pyIsSpace (c :: cs) ≠ 0 := by
        intro h0; simp [ampAt, h0] at hA
      revert hA
      unfold ampAt
      simp only [if_neg hn]
      cases hd : (c :: cs).drop (leadCount pyIsSpace (c :: cs)) with
      | nil => intro h'; cases h'
      | cons d r2 =>
        intro h'
        by_cases hdAmp : d = '&'
        · simp only [hdAmp, if_pos rfl] at h'
          by_cases hm : leadCount pyIsSpace r2 = 0
          · simp [hm] at h'
          · simp only [if_neg hm] at h'
            cases h'
            have hsplit : (c :: cs) =
                (c :: cs).take (leadCount pyIsSpace (c :: cs)) ++ '&' :: r2 := by
              conv_lhs => rw [← List.take_append_drop (leadCount pyIsSpace (c :: cs)) (c :: cs)]
              rw [hd, hdAmp]
            have hcount : (c :: cs).count '&' =
                ((c :: cs).take (leadCount pyIsSpace (c :: cs))).count '&'
                  + (r2.count '&' + 1) := by
              conv_lhs => rw [hsplit]
              simp [List.count_append, List.count_cons]
            have hdropcount : (r2.drop (leadCount pyIsSpace r2)).count '&' ≤ r2.count '&' :=
              (List.drop_sublist _ _).count_le _
            omega
        · simp [hdAmp] at h'
    | none =>
      rw [hA] at h
      cases hF : findAmp cs with
      | some pr =>
        rw [hF] at h
        cases pr with
        | mk pre2 post2 =>
          simp only [Option.some.injEq, Prod.mk.injEq] at h
          obtain ⟨hp, hq⟩ := h
          subst hq
          have := ih pre2 post2 hF
          simp only [List.count_cons]
          omega
      | none => rw [hF] at h; cases h

/-- An input with no ampersand has no spaced-ampersand separator. -/
theorem findAmp_none_of_count (s : PyStr) (h : s.count '&' = 0) :
    findAmp s = none := by
  cases hF : findAmp s with
  | none => rfl
  | some pr =>
    have := findAmp_count s pr.1 pr.2 (by rw [hF])
    omega

/-- An artist string with at most one ampersand splits into at most two
parts. -/
theorem splitAmp_le_two (s : PyStr) (h : s.count '&' ≤ 1) :
    (splitAmp s).length ≤ 2 := by
  rw [splitAmp]
  rw [show s.length + 1 = s.length + 1 from rfl]
  simp only [splitAmpFuel]
  cases hF : findAmp s with
  | none => simp
  | some pr =>
    cases pr with
    | mk pre post =>
      simp only
      have hc := findAmp_count s pre post hF
      have hpost : post.count '&' = 0 := by omega
      have hnone := findAmp_none_of_count post hpost
      have : splitAmpFuel s.length post = [post] := by
        cases s.length with
        | zero => simp [splitAmpFuel]
        | succ k => simp [splitAmpFuel, hnone]
      rw [this]
      simp

/-- Junk indicators of _parse_artists line 228. -/
def parseJunkIndicators : List PyStr :=
  [pys "recorded at", pys "mixed by", pys "endorsed by", pys "http://", pys "https://"]

/-- One comma part looks junky: over 50 characters or contains a junk
indicator (checked on the lowercased part). -/
def partIsJunk (p : PyStr) : Bool :=
  50 < p.length || parseJunkIndicators.any (fun ind => isSubstr ind (pyLowerStr p))

/-- Keep comma parts up to the first junky one (the break in the loop of
_parse_artists lines 226-230). -/
def take_until_junk : List PyStr → List PyStr
  | [] => []
  | p :: ps => if partIsJunk p then [] else p :: take_until_junk ps

/-- The comma branch of _parse_artists (lines 222-236): when the string
holds a comma and the junk filter keeps at least one part, the kept parts
are the artists and the first is the main one. -/
def comma_result (s : PyStr) : Option (PyStr × List PyStr) :=
  if ',' ∈ s then
    let valid := take_until_junk ((splitChar ',' s).map pyStrip)
    if valid.isEmpty then none else some (valid.headD [], valid)
  else none

/-- The ampersand branch of _parse_artists (lines 238-259): three or more
spaced-ampersand parts put everything but the last into the main artist
phrase; otherwise the whole stripped string is a single artist. -/
def amp_result (s : PyStr) : PyStr × List PyStr :=
  let ap := splitAmp s
  if 2 < ap.length then
    let main := joinSep (pys " & ") ap.dropLast
    (main, [main, ap.getLast!])
  else (pyStrip s, [pyStrip s])

/-- TagInference._parse_artists: comma split with junk filter first, then
the multi-ampersand chain rule, else a single artist.  Returns the pair of
the main artist and the all_artists list. -/
def parse_artists (s : PyStr) : PyStr × List PyStr :=
  if s.isEmpty then ([], [])
  else
    match comma_result s with
    | some r => r
    | none => amp_result s

/-- Junk indicators of _clean_junky_artist lines 274-278. -/
def junkyIndicators : List PyStr :=
  [pys "recorded at", pys "mixed by", pys "mastered by", pys "produced by",
   pys "endorsed by", pys "apollo twin", pys "pro tools", pys "accompanied by",
   pys "http://", pys "https://"]

/-- The inner loop of _clean_junky_artist: stop at the first junk
indicator, keep only parts shorter than 50 characters. -/
def takeCleanParts : List PyStr → List PyStr
  | [] => []
  | p :: ps =>
    if junkyIndicators.any (fun ind => isSubstr ind (pyLowerStr p)) then []
    else if p.length < 50 then p :: takeCleanParts ps
    else takeCleanParts ps

/-- TagInference._clean_junky_artist: only strings of length at least 100
are treated, split on commas and filtered. -/
def clean_junky_artist (s : PyStr) : PyStr :=
  if s.isEmpty || s.length < 100 then s
  else
    let cp := takeCleanParts ((splitChar ',' s).map pyStrip)
    if cp.isEmpty then s else joinSep (pys ", ") cp

/-- The dash-handling stage of _clean_title (lines 304-318): after noise
removal, when the title contains a spaced dash and a known artist matches
the first part under normalization, keep only the second part. -/
def ct_dash (t : PyStr) (known_artists : List PyStr) : PyStr :=
  let c := noiseSub t
  if isSubstr sepDash c && !known_artists.isEmpty then
    match splitFirstSub sepDash c with
    | some (pa, pt) =>
      if known_artists.any
          (fun a => !a.isEmpty &&
            normalize_for_comparison a == normalize_for_comparison pa) then pt
      else c
    | none => c
  else c

/-- The featured artists collected by _clean_title (lines 320-328): the
capture of every feature-pattern match, split on commas and spaced
ampersands, stripped, empties dropped. -/
def ct_feats (t : PyStr) (known_artists : List PyStr) : List PyStr :=
  (rxFindAll featRX (ct_dash t known_artists)).foldl
    (fun acc caps =>
      acc ++ (((rxSplit commaAmpRX (pyStrip (capGet 1 caps))).map pyStrip).filter
        (fun x => !x.isEmpty)))
    []

/-- The cleaned text of _clean_title just before the final length check
(lines 330-338): feature mentions removed, whitespace collapsed, stripped,
trailing orphaned open bracket removed. -/
def ct_stripped (t : PyStr) (known_artists : List PyStr) : PyStr :=
  rxSub trailingRX (pyStrip (collapseWs (rxSub featRX (ct_dash t known_artists))))

/-- TagInference._clean_title: returns the cleaned title and the featured
artists, falling back to the untouched original with an empty feature list
when the cleaned text is empty or shorter than two characters. -/
def clean_title (t : PyStr) (known_artists : List PyStr) : PyStr × List PyStr :=
  if t.isEmpty then ([], [])
  else
    let c := ct_stripped t known_artists
    if c.isEmpty || c.length < 2 then (t, [])
    else (c, ct_feats t known_artists)

/-- TagInference.clean_filename: drop the extension, underscores to spaces,
noise removal, whitespace cleanup, trailing open bracket removal, and fall
back to the extension-stripped name only when the result is empty. -/
def clean_filename (filename : PyStr) : PyStr :=
  let name := rxSub trailingRX (pyStrip (collapseWs (noiseSub (replUnd (splitextRoot filename)))))
  if !name.isEmpty then name else splitextRoot filename

/-- One FilenameEntry of analyze_folder: the extension-free filename, the
text left of the first separator when one was found, and the right text. -/
structure Entry where
  filename : PyStr
  left : Option PyStr
  right : PyStr
  deriving DecidableEq

/-- Entry construction of analyze_folder lines 58-85 for one filename:
split at the first spaced dash, else at the first dash, else no left part. -/
def make_entry (name : PyStr) : Entry :=
  if isSubstr sepDash name then
    match splitFirstSub sepDash name with
    | some (l, r) => ⟨name, some (pyStrip l), pyStrip r⟩
    | none => ⟨name, none, name⟩
  else if '-' ∈ name then
    match splitFirstSub [pys "-"].head! name with
    | some (l, r) => ⟨name, some (pyStrip l), pyStrip r⟩
    | none => ⟨name, none, name⟩
  else ⟨name, none, name⟩

/-- Python truthiness of item['left']: present and non-empty. -/
def truthy_left (e : Entry) : Bool :=
  match e.left with
  | none => false
  | some l => !l.isEmpty

/-- The normalized comma-truncated lead token used by the vote
(split(',')[0].strip() then _normalize_for_comparison). -/
def lead_key (t : PyStr) : PyStr :=
  normalize_for_comparison (pyStrip ((splitChar ',' t).headD []))

/-- Keys thrown into left_counter: one per entry with a truthy left part. -/
def left_keys (entries : List Entry) : List PyStr :=
  entries.filterMap (fun e =>
    match e.left with
    | some l => if l.isEmpty then none else some (lead_key l)
    | none => none)

/-- Keys thrown into right_counter: the right-hand lead token of the same
entries (the counter is only fed under the truthy-left guard). -/
def right_keys (entries : List Entry) : List PyStr :=
  entries.filterMap (fun e =>
    match e.left with
    | some l => if l.isEmpty then none else some (lead_key e.right)
    | none => none)

/-- Counter.most_common(1)[0][1]: the highest multiplicity among the tallied
keys, 0 for an empty tally. -/
def max_count (keys : List PyStr) : Nat :=
  (keys.map (fun k => keys.count k)).foldr Nat.max 0

/-- The ArtistSidePolicy values. -/
inductive Side where
  | left : Side
  | right : Side
  | unknown : Side
  deriving DecidableEq

/-- TagInference._determine_artist_side: the majority vote with the 30%
threshold.  Python's float division and 0.3 literal are modelled by exact
rational arithmetic (mkRat n d is the rational n / d). -/
def determine_artist_side (entries : List Entry) : Side :=
  if entries.isEmpty then Side.unknown
  else if (left_keys entries).isEmpty ∧ (right_keys entries).isEmpty then Side.unknown
  else
    let left_score : ℚ := mkRat (max_count (left_keys entries)) entries.length
    let right_score : ℚ := mkRat (max_count (right_keys entries)) entries.length
    if left_score ≥ mkRat 3 10 ∧ left_score > right_score then Side.left
    else if right_score ≥ mkRat 3 10 ∧ right_score > left_score then Side.right
    else Side.left

/-- The resolver's output record. -/
structure CleanedRecord where
  artist : PyStr
  title : PyStr
  composer : PyStr
  deriving DecidableEq

/-- Raw artist/title selection and cleanup of _process_file lines 160-180:
side-dependent selection, underscore replacement and strip, then the junky
existing-artist fallback. -/
def process_raw (e : Entry) (side : Side) (meta_artist : PyStr) : PyStr × PyStr :=
  let sel : PyStr × PyStr :=
    if side = Side.left ∧ truthy_left e then ((e.left.getD []), e.right)
    else if side = Side.right ∧ !e.right.isEmpty then
      (e.right, if truthy_left e then e.left.getD [] else e.right)
    else (meta_artist, if !e.right.isEmpty then e.right else e.filename)
  let ra := pyStrip (replUnd sel.1)
  let rt := pyStrip (replUnd sel.2)
  let ra2 :=
    if !meta_artist.isEmpty ∧ !(clean_junky_artist meta_artist).isEmpty ∧ ra.isEmpty
    then clean_junky_artist meta_artist else ra
  (ra2, rt)

/-- The merge loop of _process_file lines 191-197: start from all_artists
and append each title feature whose normalization is new. -/
def merged_artists (all_artists : List PyStr) (feats : List PyStr) : List PyStr :=
  feats.foldl
    (fun acc f =>
      if acc.any (fun a => normalize_for_comparison a == normalize_for_comparison f)
      then acc else acc ++ [f])
    all_artists

/-- The merged artist list produced while resolving one file. -/
def pf_merged (e : Entry) (side : Side) (meta_artist : PyStr) : List PyStr :=
  let raw := process_raw e side meta_artist
  let pa := parse_artists raw.1
  merged_artists pa.2 (clean_title raw.2 pa.2).2

/-- TagInference._process_file: the CleanedRecord of one file. -/
def process_file (e : Entry) (side : Side) (meta_artist : PyStr) : CleanedRecord :=
  let raw := process_raw e side meta_artist
  let pa := parse_artists raw.1
  let ct := clean_title raw.2 pa.2
  let merged := merged_artists pa.2 ct.2
  ⟨pa.1, ct.1, if 1 < merged.length then joinSep (pys ", ") merged else []⟩

/-!  TitleCleaner.clean_title (title_cleaner.py lines 87-208) and the
UNWANTED_PATTERNS default it pulls from utils/__init__.py. -/

/-- Any character but a newline: the regex dot. -/
def dotCh (c : Char) : Bool := c ≠ '\n'

/-- Lazy dot-star. -/
def lazyAny : RX := RX.rep dotCh false false

/-- An UNWANTED_PATTERNS entry: open bracket, lazy filler, a keyword body,
lazy filler, close bracket. -/
def unwPat (openCh closeCh : Char) (body : RX) : RX :=
  RX.cat (RX.chr openCh) (RX.cat lazyAny (RX.cat body (RX.cat lazyAny (RX.chr closeCh))))

/-- UNWANTED_PATTERNS of utils/__init__.py, in order. -/
def UNWANTED_PATTERNS : List RX :=
  [ unwPat '[' ']' (lit "official"),
    unwPat '(' ')' (lit "official"),
    unwPat '[' ']' (RX.cat (lit "music") (RX.cat wsPlus (lit "video"))),
    unwPat '(' ')' (RX.cat (lit "music") (RX.cat wsPlus (lit "video"))),
    unwPat '[' ']' (lit "audio"),
    unwPat '(' ')' (lit "audio"),
    unwPat '[' ']' (lit "lyrics"),
    unwPat '(' ')' (lit "lyrics"),
    unwPat '[' ']' (lit "explicit"),
    unwPat '(' ')' (lit "explicit"),
    unwPat '[' ']' (lit "clean"),
    unwPat '(' ')' (lit "clean"),
    unwPat '[' ']' (RX.cat (lit "radio") (RX.cat wsPlus (lit "edit"))),
    unwPat '(' ')' (RX.cat (lit "radio") (RX.cat wsPlus (lit "edit"))),
    unwPat '[' ']' (lit "hd"),
    unwPat '(' ')' (lit "hd"),
    unwPat '[' ']' (lit "hq"),
    unwPat '(' ')' (lit "hq") ]

/-- The feat/ft/featuring marker alternation, tried left to right. -/
def tcMarkers : RX := RX.alt (lit "feat") (RX.alt (lit "ft") (lit "featuring"))

/-- Opening bracket class. -/
def openBr (c : Char) : Bool := c = '(' || c = '['

/-- Closing bracket class. -/
def closeBr (c : Char) : Bool := c = ')' || c = ']'

/-- The two-alternative featured-artist regex of TitleCleaner.clean_title
lines 105-110: a bracketed marker with group 1, or a bare marker with
group 2 running to end of string or a spaced dash. -/
def tcFeatRX : RX :=
  RX.alt
    (RX.cat (RX.cls openBr) (RX.cat wsStar (RX.cat tcMarkers (RX.cat (RX.opt (RX.chr '.'))
      (RX.cat wsStar (RX.cat (RX.grp 1 lazyAny) (RX.cat wsStar (RX.cls closeBr))))))))
    (RX.cat tcMarkers (RX.cat (RX.opt (RX.chr '.'))
      (RX.cat wsPlus (RX.cat (RX.grp 2 lazyAny) (RX.alt RX.eos (lit " - "))))))

/-- The split pattern comma, ampersand, or spaced "and" of line 115. -/
def tcSplitRX : RX := RX.alt (RX.chr ',') (RX.alt (RX.chr '&') (lit " and "))

/-- Class excluding dash, open brackets and pipe, for the ampersand
follower capture of line 128. -/
def notDashOpenPipe (c : Char) : Bool :=
  !(c = '-' || c = '(' || c = '[' || c = '|')

/-- Class excluding dash and open brackets, lines 156 and 183. -/
def notDashOpen (c : Char) : Bool := !(c = '-' || c = '(' || c = '[')

/-- artist-ampersand findall pattern of lines 127-131 (re.escape makes the
artist a literal). -/
def tcAmpFindRX (artist : PyStr) : RX :=
  RX.cat (litStr artist) (RX.cat wsStar (RX.cat (RX.alt (RX.chr '&') (lit "and"))
    (RX.cat wsPlus (RX.grp 1 (RX.rep notDashOpenPipe true true)))))

/-- Leading artist-plus-punctuation sub pattern of lines 149-154. -/
def tcLeadRX (artist : PyStr) : RX :=
  RX.cat RX.bos (RX.cat (litStr artist) (RX.cat wsStar
    (RX.cat (RX.cls (fun c => c = ',' || c = '.' || c = '-' || c = '–' || c = '—'))
      wsStar)))

/-- artist-ampersand removal sub pattern of lines 155-160. -/
def tcAmpSubRX (artist : PyStr) : RX :=
  RX.cat (litStr artist) (RX.cat wsStar (RX.cat (RX.alt (RX.chr '&') (lit "and"))
    (RX.cat wsPlus (RX.rep notDashOpen true true))))

/-- Word-bounded artist removal sub pattern of lines 161-166. -/
def tcWordRX (artist : PyStr) : RX :=
  RX.cat RX.bnd (RX.cat (litStr artist) RX.bnd)

/-- Bracketed feature-tag removal pattern of lines 174-179. -/
def tcFeatBrSubRX : RX :=
  RX.cat (RX.cls openBr) (RX.cat wsStar (RX.cat tcMarkers (RX.cat (RX.opt (RX.chr '.'))
    (RX.cat wsStar (RX.cat lazyAny (RX.cls closeBr))))))

/-- Bare feature-tag removal pattern of lines 182-187. -/
def tcFeatPlainSubRX : RX :=
  RX.cat tcMarkers (RX.cat (RX.opt (RX.chr '.'))
    (RX.cat wsPlus (RX.rep notDashOpen true true)))

/-- Empty parentheses pattern of line 190. -/
def parenEmptyRX : RX := RX.cat (RX.chr '(') (RX.cat wsStar (RX.chr ')'))

/-- Empty brackets pattern of line 191. -/
def brackEmptyRX : RX := RX.cat (RX.chr '[') (RX.cat wsStar (RX.chr ']'))

/-- The character set of the final strip on line 195. -/
def tcStripSet : List Char := [' ', '-', '_', ',', ';', ':', '.', '(', ')', '[', ']']

/-- Helper for dedupKeepFirst: keep elements not seen before, threading the
set of already-emitted strings. -/
def dedupSeen (seen : List PyStr) : List PyStr → List PyStr
  | [] => []
  | x :: xs => if x ∈ seen then dedupSeen seen xs else x :: dedupSeen (x :: seen) xs

/-- list(dict.fromkeys(l)): drop later exact duplicates, keeping the first
occurrence of each string in first-seen order. -/
def dedupKeepFirst (l : List PyStr) : List PyStr := dedupSeen [] l

/-- The raw featured-artist candidates of TitleCleaner.clean_title in
collection order: regex matches, comma credits before a dash, and
artist-ampersand followers. -/
def tc_ft_candidates (title artist : PyStr) : List PyStr :=
  let fts1 := (rxFindAll tcFeatRX title).foldl
    (fun acc caps =>
      let m := if !(capGet 1 caps).isEmpty then capGet 1 caps else capGet 2 caps
      if !m.isEmpty then
        acc ++ (((rxSplit tcSplitRX m).map pyStrip).filter (fun x => !x.isEmpty))
      else acc)
    []
  let fts2 :=
    if !artist.isEmpty && isSubstr sepDash title then
      let before_dash := ((splitFirstSub sepDash title).map Prod.fst).getD title
      if ',' ∈ before_dash then
        fts1 ++ ((((splitChar ',' before_dash).drop 1).map pyStrip).filter
          (fun x => !x.isEmpty))
      else fts1
    else fts1
  if !artist.isEmpty then
    fts2 ++ ((rxFindAll (tcAmpFindRX artist) title).map (fun caps => pyStrip (capGet 1 caps)))
  else fts2

/-- TitleCleaner.clean_title: returns the cleaned title, the updated
composer and the deduplicated featured-artist list. -/
def tc_clean_title (title artist composer : PyStr) (unwanted : Option (List RX)) :
    PyStr × PyStr × List PyStr :=
  if title.isEmpty then (title, composer, [])
  else
    let ft := dedupKeepFirst (tc_ft_candidates title artist)
    let pats := unwanted.getD UNWANTED_PATTERNS
    let t1 := pats.foldl (fun acc r => rxSub r acc) title
    let t2 :=
      if !artist.isEmpty then
        rxSub brackEmptyRX (rxSub parenEmptyRX (rxSub tcFeatPlainSubRX
          (rxSub tcFeatBrSubRX (rxSub (tcWordRX artist)
            (rxSub (tcAmpSubRX artist) (rxSub (tcLeadRX artist) t1))))))
      else t1
    let t3 := pyStripChars tcStripSet (collapseWs t2)
    let existing :=
      if composer.isEmpty then []
      else ((splitChar ',' composer).map pyStrip).filter (fun c => !c.isEmpty)
    let ex2 := ft.foldl
      (fun acc f =>
        if !f.isEmpty &&
            !acc.any (fun e2 => pyLowerStr f == pyLowerStr e2) then acc ++ [f]
        else acc)
      existing
    let updated := if ex2.isEmpty then [] else joinSep (pys ", ") ex2
    (t3, updated, ft)

/-!  The apply path: TagInference.apply_cleaned_metadata (lines 373-410)
together with the composer handling of MetadataManager._write_mp3
(lines 294-309).  A tag dictionary is modelled per field as an Option: a
missing key is none, matching the None-skip semantics of the writer. -/

/-- The tag dictionary built and passed to the writer: artist, title and
composer entries (the other fields are carried through unchanged by the
apply step and are irrelevant to the modelled claims). -/
structure PyMeta where
  artist : Option PyStr
  title : Option PyStr
  composer : Option PyStr
  deriving DecidableEq

/-- The tags stored in one audio file, same three fields. -/
structure FileTags where
  artist : Option PyStr
  title : Option PyStr
  composer : Option PyStr
  deriving DecidableEq

/-- MetadataManager.read_metadata always fills every key, with the empty
string for an absent tag (get_easy). -/
def read_metadata_model (f : FileTags) : PyMeta :=
  ⟨some (f.artist.getD []), some (f.title.getD []), some (f.composer.getD [])⟩

/-- The dictionary update of apply_cleaned_metadata lines 386-398: set
artist and title when non-empty, set composer when non-empty and pop the
composer key otherwise. -/
def apply_update (existing : PyMeta) (rec : CleanedRecord) : PyMeta :=
  ⟨if !rec.artist.isEmpty then some rec.artist else existing.artist,
   if !rec.title.isEmpty then some rec.title else existing.title,
   if !rec.composer.isEmpty then some rec.composer else none⟩

/-- One field of MetadataManager._write_mp3 lines 294-309: a missing key is
skipped, a non-empty value is written, an empty value clears the field when
allow_blanks is set. -/
def write_mp3_field (old : Option PyStr) (v : Option PyStr) (allow_blanks : Bool) :
    Option PyStr :=
  match v with
  | none => old
  | some x => if !x.isEmpty then some x else if allow_blanks then none else old

/-- MetadataManager._write_mp3 on the three modelled fields. -/
def write_mp3 (f : FileTags) (m : PyMeta) (allow_blanks : Bool) : FileTags :=
  ⟨write_mp3_field f.artist m.artist allow_blanks,
   write_mp3_field f.title m.title allow_blanks,
   write_mp3_field f.composer m.composer allow_blanks⟩

/-- The apply step for one file whose read and write both succeed:
read_metadata, the dictionary update, then the writer with the default
allow_blanks=True of write_metadata. -/
def apply_one_file (f : FileTags) (rec : CleanedRecord) : FileTags :=
  write_mp3 f (apply_update (read_metadata_model f) rec) true

/-- The external collaborators of apply_cleaned_metadata: a tag reader and
a tag writer, each allowed to raise (error) or to return a value. -/
structure ApplyEnv where
  readMd : PyStr → Except Unit PyMeta
  writeMd : PyStr → PyMeta → Except Unit Bool

/-- The body of the per-file try block: read, update, write. -/
def apply_file_step (env : ApplyEnv) (p : PyStr) (rec : CleanedRecord) :
    Except Unit Bool :=
  match env.readMd p with
  | Except.error e => Except.error e
  | Except.ok ex => env.writeMd p (apply_update ex rec)

/-- The write for this file succeeded: no exception and a true return. -/
def write_succeeded : Except Unit Bool → Bool
  | Except.ok true => true
  | _ => false

/-- TagInference.apply_cleaned_metadata: iterate over the mapping, count a
success when the write returns true, swallow failures and exceptions and
keep going. -/
def apply_cleaned_metadata (env : ApplyEnv) : List (PyStr × CleanedRecord) → Nat
  | [] => 0
  | pr :: rest =>
    (if write_succeeded (apply_file_step env pr.1 pr.2) then 1 else 0)
      + apply_cleaned_metadata env rest

/-!  Helper lemmas. -/

/-- A comma-join of at least two strings is never empty. -/
theorem joinSep_comma_ne_nil :
    ∀ l : List PyStr, 2 ≤ l.length → joinSep (pys ", ") l ≠ [] := by
  intro l h
  match l, h with
  | a :: b :: t, _ =>
    simp only [joinSep, List.intercalate, List.intersperse, List.join]
    simp [pys]

/-- The extension-stripped root of a non-empty name is non-empty. -/
theorem splitextRoot_ne_nil (s : PyStr) (h : s ≠ []) : splitextRoot s ≠ [] := by
  unfold splitextRoot
  cases hf : s.reverse.findIdx? (· = '.') with
  | none => exact h
  | some k =>
    simp only
    split
    · rename_i hany
      intro h0
      rw [h0] at hany
      simp at hany
    · exact h

/-- Every element emitted by dedupSeen avoids the seen set, and the output
carries no duplicates. -/
theorem dedupSeen_nodup :
    ∀ (l seen : List PyStr),
      (∀ x ∈ dedupSeen seen l, x ∉ seen) ∧ (dedupSeen seen l).Nodup := by
  intro l
  induction l with
  | nil => intro seen; simp [dedupSeen]
  | cons y ys ih =>
    intro seen
    by_cases hy : y ∈ seen
    · simpa [dedupSeen, hy] using ih seen
    · have ih2 := ih (y :: seen)
      constructor
      · intro x hx
        simp only [dedupSeen, if_neg hy, List.mem_cons] at hx
        rcases hx with rfl | hx
        · exact hy
        · have := ih2.1 x hx
          intro hxs
          exact this (List.mem_cons_of_mem _ hxs)
      · simp only [dedupSeen, if_neg hy, List.nodup_cons]
        refine ⟨?_, ih2.2⟩
        intro hmem
        exact (ih2.1 y hmem) (List.mem_cons_self _ _)

/-- dedupSeen output is a sublist of the input. -/
theorem dedupSeen_sublist :
    ∀ (l seen : List PyStr), (dedupSeen seen l).Sublist l := by
  intro l
  induction l with
  | nil => intro seen; simp [dedupSeen]
  | cons y ys ih =>
    intro seen
    by_cases hy : y ∈ seen
    · simpa [dedupSeen, hy] using (ih seen).cons y
    · simpa [dedupSeen, hy] using (ih (y :: seen)).cons₂ y

/-- Membership across dedupSeen. -/
theorem dedupSeen_mem :
    ∀ (l seen : List PyStr) (x : PyStr),
      x ∈ dedupSeen seen l ↔ (x ∈ l ∧ x ∉ seen) := by
  intro l
  induction l with
  | nil => intro seen x; simp [dedupSeen]
  | cons y ys ih =>
    intro seen x
    by_cases hy : y ∈ seen
    · rw [show dedupSeen seen (y :: ys) = dedupSeen seen ys from by simp [dedupSeen, hy]]
      rw [ih seen x]
      simp only [List.mem_cons]
      constructor
      · rintro ⟨hx, hns⟩; exact ⟨Or.inr hx, hns⟩
      · rintro ⟨rfl | hx, hns⟩
        · exact absurd hy hns
        · exact ⟨hx, hns⟩
    · rw [show dedupSeen seen (y :: ys) = y :: dedupSeen (y :: seen) ys from by
        simp [dedupSeen, hy]]
      simp only [List.mem_cons, ih (y :: seen) x]
      constructor
      · rintro (rfl | ⟨hx, hns⟩)
        · exact ⟨Or.inl rfl, hy⟩
        · exact ⟨Or.inr hx, fun hxs => hns (Or.inr hxs)⟩
      · rintro ⟨rfl | hx, hns⟩
        · exact Or.inl rfl
        · by_cases hxy : x = y
          · exact Or.inl hxy
          · refine Or.inr ⟨hx, ?_⟩
            intro hmem
            rcases hmem with rfl | hmem2
            · exact hxy rfl
            · exact hns hmem2

set_option maxRecDepth 40000

/-!  Claim theorems. -/

/-- C2: at the spec scenario input, _clean_title does NOT extract the
parenthesized featured artist: the feature regex requires the captured
names to be followed by an opening bracket or end of string, so a feat
clause that ends with a closing parenthesis never matches.  The code
returns the title with the feat clause kept and an empty feature list,
against the claimed ("Song Title", ["Other Artist"]). -/
theorem c2_clean_title_paren_feat_unrecognized :
    clean_title (pys "SomeArtist - Song Title (feat. Other Artist)") [pys "SomeArtist"]
      = (pys "Song Title (feat. Other Artist)", []) := by
  decide

/-- C6: a file holding a composer tag, cleaned to a record with an empty
composer, keeps its old composer after the apply step: apply pops the
composer key instead of writing an empty string, and the writer skips
missing keys.  The second conjunct shows the writer itself would clear the
field had an empty string been passed, so the allow_blanks path is never
reached. -/
theorem c6_composer_not_cleared :
    (apply_one_file ⟨some (pys "X"), some (pys "Y"), some (pys "Old Composer")⟩
        ⟨pys "A", pys "T", []⟩).composer = some (pys "Old Composer")
    ∧ write_mp3_field (some (pys "Old Composer")) (some []) true = none := by
  decide

/-- C9: apply never aborts on a failing file: the success count equals the
number of mapping entries whose read-update-write step returns true, and
the count over a concatenation splits, so a failure in a prefix never
affects the suffix. -/
theorem c9_apply_partial_failure (env : ApplyEnv) (l : List (PyStr × CleanedRecord)) :
    apply_cleaned_metadata env l
        = l.countP (fun pr => write_succeeded (apply_file_step env pr.1 pr.2))
    ∧ ∀ l2 : List (PyStr × CleanedRecord),
        apply_cleaned_metadata env (l ++ l2)
          = apply_cleaned_metadata env l + apply_cleaned_metadata env l2 := by
  constructor
  · induction l with
    | nil => simp [apply_cleaned_metadata]
    | cons pr rest ih =>
      simp only [apply_cleaned_metadata, List.countP_cons, ih]
      by_cases h : write_succeeded (apply_file_step env pr.1 pr.2) <;> simp [h] <;> omega
  · intro l2
    induction l with
    | nil => simp [apply_cleaned_metadata]
    | cons pr rest ih =>
      simp only [List.cons_append, apply_cleaned_metadata, List.append_eq]
      rw [ih]
      omega

/-- C10: when the stripped title collapses below two characters, the
cleaning step returns the original title with an EMPTY feature list, so
features already extracted from that title are discarded. -/
theorem c10_short_fallback_discards_features (t : PyStr) (ka : List PyStr)
    (h1 : t ≠ []) (h2 : (ct_stripped t ka).length < 2) :
    clean_title t ka = (t, []) := by
  have he : t.isEmpty = false := by
    cases t with
    | nil => exact absurd rfl h1
    | cons c cs => rfl
  simp [clean_title, he, h2]

/-- C10 witness: on "x feat. A" the feature extractor finds a candidate but
the stripped title is empty, so the call returns the original title and an
empty list, discarding the extracted candidate. -/
theorem c10_witness :
    ct_feats (pys "x feat. A") [] = [pys "feat. A"]
    ∧ clean_title (pys "x feat. A") [] = (pys "x feat. A", []) := by
  refine ⟨by decide, ?_⟩
  exact c10_short_fallback_discards_features (pys "x feat. A") [] (by decide) (by decide)

/-- C5: the composer of a resolved record is non-empty exactly when the
merged de-duplicated artist list has two or more entries, and equals its
comma-join in that case. -/
theorem c5_composer_iff_multiple (e : Entry) (side : Side) (ma : PyStr) :
    ((process_file e side ma).composer ≠ [] ↔ 2 ≤ (pf_merged e side ma).length)
    ∧ ((process_file e side ma).composer ≠ [] →
        (process_file e side ma).composer = joinSep (pys ", ") (pf_merged e side ma)) := by
  have hc : (process_file e side ma).composer
      = (if 1 < (pf_merged e side ma).length
         then joinSep (pys ", ") (pf_merged e side ma) else []) := rfl
  constructor
  · constructor
    · intro hne
      by_contra hlt
      push_neg at hlt
      rw [hc, if_neg (by omega)] at hne
      exact hne rfl
    · intro hge
      rw [hc, if_pos (by omega)]
      exact joinSep_comma_ne_nil _ hge
  · intro hne
    by_cases hlen : 1 < (pf_merged e side ma).length
    · rw [hc, if_pos hlen]
    · rw [hc, if_neg hlen] at hne
      exact absurd rfl hne

/-- C5 witness: the Romeo Santos record has a two-entry merged list and the
comma-joined composer. -/
theorem c5_witness :
    (process_file (make_entry (pys "Romeo Santos & Prince Royce & Dalvin - Debate De 4"))
        Side.left []).composer
      = joinSep (pys ", ")
          (pf_merged (make_entry (pys "Romeo Santos & Prince Royce & Dalvin - Debate De 4"))
            Side.left []) := by
  exact (c5_composer_iff_multiple
    (make_entry (pys "Romeo Santos & Prince Royce & Dalvin - Debate De 4"))
    Side.left []).2 (by decide)

/-- C3 counterexample: on "x (official video)" the stripped result is the
single character "x", which is shorter than two characters, yet
clean_filename returns it instead of falling back to the original text as
the claim requires. -/
theorem c3_counterexample :
    (clean_filename (pys "x (official video)")).length < 2
    ∧ clean_filename (pys "x (official video)") ≠ pys "x (official video)" := by
  decide

/-- C3 amended: both cleaning paths return at least one character for
non-empty input; the title path falls back to the original below two
characters, while clean_filename falls back to the extension-stripped
original only when its result is empty, so a one-character result is
returned as-is. -/
theorem c3_never_empty :
    (∀ (t : PyStr) (ka : List PyStr), t ≠ [] → 1 ≤ (clean_title t ka).1.length)
    ∧ (∀ f : PyStr, f ≠ [] → 1 ≤ (clean_filename f).length) := by
  constructor
  · intro t ka ht
    have he : t.isEmpty = false := by
      cases t with
      | nil => exact absurd rfl ht
      | cons c cs => rfl
    by_cases hshort : ((ct_stripped t ka).isEmpty || decide ((ct_stripped t ka).length < 2)) = true
    · have hcl : (clean_title t ka).1 = t := by
        simp only [clean_title]
        rw [if_neg (by simp [he]), if_pos hshort]
      rw [hcl]
      simpa [Nat.succ_le_iff, List.length_pos] using ht
    · have hcl : (clean_title t ka).1 = ct_stripped t ka := by
        simp only [clean_title]
        rw [if_neg (by simp [he]), if_neg hshort]
      rw [hcl]
      simp only [Bool.or_eq_true, decide_eq_true_eq, not_or] at hshort
      omega
  · intro f hf
    by_cases hname :
        (rxSub trailingRX (pyStrip (collapseWs (noiseSub (replUnd (splitextRoot f)))))).isEmpty = true
    · have hcl : clean_filename f = splitextRoot f := by
        simp only [clean_filename]
        rw [if_neg (by simp [hname])]
      rw [hcl]
      have := splitextRoot_ne_nil f hf
      simpa [Nat.succ_le_iff, List.length_pos] using this
    · have hcl : clean_filename f
          = rxSub trailingRX (pyStrip (collapseWs (noiseSub (replUnd (splitextRoot f))))) := by
        simp only [clean_filename]
        rw [if_pos (by simp at hname ⊢; exact hname)]
      rw [hcl]
      have hne : rxSub trailingRX (pyStrip (collapseWs (noiseSub (replUnd (splitextRoot f))))) ≠ [] := by
        intro h0
        rw [h0] at hname
        exact hname rfl
      simpa [Nat.succ_le_iff, List.length_pos] using hne

/-- C3 witness: the amended bound holds at concrete non-empty inputs. -/
theorem c3_witness :
    1 ≤ (clean_title (pys "(Official Video)") []).1.length
    ∧ 1 ≤ (clean_filename (pys "(Official Video)")).length := by
  exact ⟨c3_never_empty.1 (pys "(Official Video)") [] (by decide),
         c3_never_empty.2 (pys "(Official Video)") (by decide)⟩

/-- C7 counterexample: the same name under two casings yields TWO entries
in the featured-artist list the extractor returns — the dict.fromkeys
deduplication is exact-string, not case-insensitive. -/
theorem c7_counterexample :
    (tc_clean_title (pys "Song (feat. Alice) [ft. ALICE]") (pys "X") [] none).2.2
      = [pys "Alice", pys "ALICE"]
    ∧ pyLowerStr (pys "Alice") = pyLowerStr (pys "ALICE")
    ∧ pys "Alice" ≠ pys "ALICE" := by
  decide

/-- C7 amended: the extractor de-duplicates only exact duplicates, keeping
the first occurrence of each string in first-seen order (the returned list
has no exact duplicates and is an order-preserving sublist of the collected
candidates); two casings of one name remain distinct entries, and only the
downstream merge steps compare case-insensitively. -/
theorem c7_exact_dedup :
    (∀ (title artist composer : PyStr) (u : Option (List RX)),
       ((tc_clean_title title artist composer u).2.2).Nodup)
    ∧ (∀ l : List PyStr,
         (dedupKeepFirst l).Sublist l ∧ (∀ x, x ∈ dedupKeepFirst l ↔ x ∈ l)) := by
  constructor
  · intro title artist composer u
    by_cases h : title.isEmpty = true
    · have : (tc_clean_title title artist composer u).2.2 = [] := by
        simp only [tc_clean_title]
        rw [if_pos h]
      rw [this]
      exact List.nodup_nil
    · have : (tc_clean_title title artist composer u).2.2
          = dedupKeepFirst (tc_ft_candidates title artist) := by
        simp only [tc_clean_title]
        rw [if_neg h]
      rw [this]
      exact (dedupSeen_nodup (tc_ft_candidates title artist) []).2
  · intro l
    refine ⟨dedupSeen_sublist l [], ?_⟩
    intro x
    rw [show dedupKeepFirst l = dedupSeen [] l from rfl, dedupSeen_mem l [] x]
    simp

/-- C8 counterexample: noise stripping is not idempotent.  Removing the
inner "(audio)" marker and collapsing whitespace turns
"x (official (audio) video)" into "x (official video)", which a second
pass strips down to "x". -/
theorem c8_counterexample :
    clean_filename (clean_filename (pys "x (official (audio) video)"))
      ≠ clean_filename (pys "x (official (audio) video)") := by
  decide

/-- A text left unchanged by each constituent pass of clean_filename
(extension split, underscore replacement, noise-pattern removal, whitespace
collapse and strip, trailing-bracket removal) is left unchanged by
clean_filename itself. -/
theorem clean_filename_pass_fixed (y : PyStr)
    (h1 : splitextRoot y = y) (h2 : replUnd y = y) (h3 : noiseSub y = y)
    (h4 : pyStrip (collapseWs y) = y) (h5 : rxSub trailingRX y = y) :
    clean_filename y = y := by
  simp only [clean_filename]
  rw [h1, h2, h3, h4, h5]
  split
  · rfl
  · rfl

/-- C8 amended: noise stripping is not idempotent for every input (a
pattern can re-match the residue of a first pass); it is idempotent on
every input whose first-pass result is left unchanged by each constituent
pass.  This condition is sufficient, not necessary: the empty-result
fallback can also restore a fixed point. -/
theorem c8_conditional_idempotent (x : PyStr)
    (h1 : splitextRoot (clean_filename x) = clean_filename x)
    (h2 : replUnd (clean_filename x) = clean_filename x)
    (h3 : noiseSub (clean_filename x) = clean_filename x)
    (h4 : pyStrip (collapseWs (clean_filename x)) = clean_filename x)
    (h5 : rxSub trailingRX (clean_filename x) = clean_filename x) :
    clean_filename (clean_filename x) = clean_filename x :=
  clean_filename_pass_fixed (clean_filename x) h1 h2 h3 h4 h5

/-- C8 witness: one pass takes "Song Name (Official Video)" to
"Song Name", which every constituent pass fixes, so a second pass changes
nothing. -/
theorem c8_witness :
    clean_filename (clean_filename (pys "Song Name (Official Video)"))
      = clean_filename (pys "Song Name (Official Video)") := by
  exact c8_conditional_idempotent (pys "Song Name (Official Video)") (by decide)
    (by decide) (by decide) (by decide) (by decide)

/-- The comma branch yields nothing when there is no usable comma split. -/
theorem comma_result_none (s : PyStr)
    (hnc : ¬(',' ∈ s ∧ take_until_junk ((splitChar ',' s).map pyStrip) ≠ [])) :
    comma_result s = none := by
  unfold comma_result
  by_cases hm : ',' ∈ s
  · have hv : take_until_junk ((splitChar ',' s).map pyStrip) = [] := by
      by_contra hne
      exact hnc ⟨hm, hne⟩
    rw [if_pos hm]
    simp [hv]
  · rw [if_neg hm]

/-- C4: the ampersand-chain rule.  With no usable comma split, three or
more spaced-ampersand parts give main = the join of all but the last and
all_artists = [main, last]; a string with at most one ampersand character
is kept whole as a single artist; a usable comma split takes priority; and
the Romeo Santos filename resolves exactly as the spec scenario states. -/
theorem c4_ampersand_chain :
    (∀ s : PyStr,
       ¬(',' ∈ s ∧ take_until_junk ((splitChar ',' s).map pyStrip) ≠ []) →
       2 < (splitAmp s).length →
       parse_artists s
         = (joinSep (pys " & ") (splitAmp s).dropLast,
            [joinSep (pys " & ") (splitAmp s).dropLast, (splitAmp s).getLast!]))
    ∧ (∀ s : PyStr, s ≠ [] →
       ¬(',' ∈ s ∧ take_until_junk ((splitChar ',' s).map pyStrip) ≠ []) →
       s.count '&' ≤ 1 →
       parse_artists s = (pyStrip s, [pyStrip s]))
    ∧ (∀ s : PyStr, ',' ∈ s →
       take_until_junk ((splitChar ',' s).map pyStrip) ≠ [] →
       parse_artists s
         = ((take_until_junk ((splitChar ',' s).map pyStrip)).headD [],
            take_until_junk ((splitChar ',' s).map pyStrip)))
    ∧ process_file (make_entry (pys "Romeo Santos & Prince Royce & Dalvin - Debate De 4"))
        Side.left []
      = ⟨pys "Romeo Santos & Prince Royce", pys "Debate De 4",
         pys "Romeo Santos & Prince Royce, Dalvin"⟩ := by
  refine ⟨?_, ?_, ?_, by decide⟩
  · intro s hnc h2
    by_cases hse : s.isEmpty = true
    · have hnil : s = [] := by simpa using hse
      subst hnil
      simp [splitAmp, splitAmpFuel, findAmp] at h2
    · have hpa : parse_artists s = amp_result s := by
        simp only [parse_artists]
        rw [if_neg hse, comma_result_none s hnc]
      rw [hpa]
      unfold amp_result
      rw [if_pos h2]
  · intro s hs hnc hamp
    have hse : s.isEmpty = false := by
      cases s with
      | nil => exact absurd rfl hs
      | cons c cs => rfl
    have hpa : parse_artists s = amp_result s := by
      simp only [parse_artists]
      rw [if_neg (by simp [hse]), comma_result_none s hnc]
    rw [hpa]
    unfold amp_result
    rw [if_neg (by have := splitAmp_le_two s hamp; omega)]
  · intro s hm hv
    have hse : s.isEmpty = false := by
      cases s with
      | nil => simp at hm
      | cons c cs => rfl
    have hcr : comma_result s
        = some ((take_until_junk ((splitChar ',' s).map pyStrip)).headD [],
                take_until_junk ((splitChar ',' s).map pyStrip)) := by
      unfold comma_result
      rw [if_pos hm]
      simp [hv]
    simp only [parse_artists]
    rw [if_neg (by simp [hse]), hcr]

/-- C4 witness: the three general conjuncts applied at concrete inputs. -/
theorem c4_witness :
    parse_artists (pys "A & B & C") = (pys "A & B", [pys "A & B", pys "C"])
    ∧ parse_artists (pys "A & B") = (pys "A & B", [pys "A & B"])
    ∧ parse_artists (pys "A, B & C & D") = (pys "A", [pys "A", pys "B & C & D"]) := by
  refine ⟨?_, ?_, ?_⟩
  · exact (c4_ampersand_chain.1 (pys "A & B & C") (by decide) (by decide)).trans (by decide)
  · exact (c4_ampersand_chain.2.1 (pys "A & B") (by decide) (by decide) (by decide)).trans
      (by decide)
  · exact (c4_ampersand_chain.2.2.1 (pys "A, B & C & D") (by decide) (by decide)).trans
      (by decide)

/-- C1: the artist-side vote returns unknown exactly on batches with no
usable left segment; otherwise the decision follows the claimed rule on
left_score and right_score, each the highest per-side normalized lead-token
count divided by the total number of entries, with the 0.30 threshold, the
stated order of tests and the left default. -/
theorem c1_determine_artist_side (entries : List Entry) :
    ((∀ e ∈ entries, truthy_left e = false) →
       determine_artist_side entries = Side.unknown)
    ∧ ((∃ e ∈ entries, truthy_left e = true) →
       determine_artist_side entries =
         (if (max_count (left_keys entries) : ℚ) / (entries.length : ℚ) ≥ 3 / 10
             ∧ (max_count (left_keys entries) : ℚ) / (entries.length : ℚ)
               > (max_count (right_keys entries) : ℚ) / (entries.length : ℚ)
          then Side.left
          else if (max_count (right_keys entries) : ℚ) / (entries.length : ℚ) ≥ 3 / 10
             ∧ (max_count (right_keys entries) : ℚ) / (entries.length : ℚ)
               > (max_count (left_keys entries) : ℚ) / (entries.length : ℚ)
          then Side.right
          else Side.left)) := by
  constructor
  · intro h
    by_cases he : entries.isEmpty = true
    · simp [determine_artist_side, he]
    · have hlk : left_keys entries = [] := by
        unfold left_keys
        rw [List.filterMap_eq_nil]
        intro e he2
        have ht := h e he2
        unfold truthy_left at ht
        cases hl : e.left with
        | none => simp
        | some l =>
          rw [hl] at ht
          simp only [Bool.not_eq_false'] at ht
          simp [ht]
      have hrk : right_keys entries = [] := by
        unfold right_keys
        rw [List.filterMap_eq_nil]
        intro e he2
        have ht := h e he2
        unfold truthy_left at ht
        cases hl : e.left with
        | none => simp
        | some l =>
          rw [hl] at ht
          simp only [Bool.not_eq_false'] at ht
          simp [ht]
      simp only [determine_artist_side]
      rw [if_neg he, if_pos ⟨by simp [hlk], by simp [hrk]⟩]
  · rintro ⟨e, he, ht⟩
    have hne : entries.isEmpty = false := by
      cases entries with
      | nil => simp at he
      | cons a l => rfl
    unfold truthy_left at ht
    have hlkmem : ¬((left_keys entries).isEmpty = true ∧ (right_keys entries).isEmpty = true) := by
      cases hl : e.left with
      | none => rw [hl] at ht; cases ht
      | some l =>
        rw [hl] at ht
        simp only [Bool.not_eq_true'] at ht
        have hmem : lead_key l ∈ left_keys entries := by
          unfold left_keys
          apply List.mem_filterMap.mpr
          exact ⟨e, he, by simp [hl, ht]⟩
        rintro ⟨hA, _⟩
        rw [List.isEmpty_iff] at hA
        rw [hA] at hmem
        simp at hmem
    simp only [determine_artist_side]
    rw [if_neg (by simp [hne]), if_neg hlkmem]
    have e1 : (mkRat (max_count (left_keys entries)) entries.length : ℚ)
        = (max_count (left_keys entries) : ℚ) / (entries.length : ℚ) := by
      rw [Rat.mkRat_eq_div]
      push_cast
      ring
    have e2 : (mkRat (max_count (right_keys entries)) entries.length : ℚ)
        = (max_count (right_keys entries) : ℚ) / (entries.length : ℚ) := by
      rw [Rat.mkRat_eq_div]
      push_cast
      ring
    have e3 : (mkRat 3 10 : ℚ) = 3 / 10 := by
      rw [Rat.mkRat_eq_div]
      norm_num
    rw [e1, e2, e3]

/-- C1 witness: a two-file batch with the same left artist resolves to
left via the decision rule (left score 1 at least 0.30 and above the right
score 0.5). -/
theorem c1_witness :
    determine_artist_side
      [make_entry (pys "Bad Bunny - A"), make_entry (pys "Bad Bunny - B")] = Side.left := by
  have h := (c1_determine_artist_side
      [make_entry (pys "Bad Bunny - A"), make_entry (pys "Bad Bunny - B")]).2
    ⟨make_entry (pys "Bad Bunny - A"), by decide, by decide⟩
  rw [h]
  have h1 : max_count (left_keys
      [make_entry (pys "Bad Bunny - A"), make_entry (pys "Bad Bunny - B")]) = 2 := by decide
  have h2 : max_count (right_keys
      [make_entry (pys "Bad Bunny - A"), make_entry (pys "Bad Bunny - B")]) = 1 := by decide
  rw [h1, h2]
  norm_num [List.length]
